import Mathlib

/-!
Verification of the pull-request dashboard's core logic (services/github.ts,
utils/dateUtils.ts) against its specification.  The TypeScript source is
shallowly embedded: JavaScript numbers holding integers become `Int`/`Nat`,
JS strings become `String` (with character-list helpers mirroring the JS
string methods used), promises that can reject become `Except String`,
and the two concurrently awaited fetches of `searchTeamPullRequests` are
passed in as their settled outcomes together with an explicit settle order
(JS `Promise.all` rejects with whichever rejection settles first).
-/

/-- The author of a pull request (`user` in the normalized shape). -/
structure Author where
  login : String
  avatar_url : String
  html_url : String
deriving DecidableEq

/-- The repository reference carried by a normalized pull request. -/
structure Repository where
  name : String
  full_name : String
  html_url : String
deriving DecidableEq

/-- The normalized `PullRequest` shape (src/types/github via services/github.ts). -/
structure PullRequest where
  id : Int
  number : Int
  title : String
  html_url : String
  created_at : String
  updated_at : String
  user : Author
  repository : Repository
  draft : Bool
  state : String
deriving DecidableEq

/-- A raw search-result item's `user` object (may be absent on the item). -/
structure RawUser where
  login : String
  avatar_url : String
  html_url : String
deriving DecidableEq

/-- A raw item of the search response, before normalization.  `user` is
`none` for a deleted account; `draft` is `none` when the field is absent. -/
structure RawItem where
  id : Int
  number : Int
  title : String
  html_url : String
  created_at : String
  updated_at : String
  user : Option RawUser
  repository_url : String
  draft : Option Bool
  state : String
deriving DecidableEq

/-- JS `p isPrefix of s` on character lists (used by the model of
`String.prototype.replace` with a string pattern). -/
def startsWithChars : List Char → List Char → Bool
  | [], _ => true
  | _ :: _, [] => false
  | p :: ps, x :: xs => p == x && startsWithChars ps xs

/-- JS `s.split(sep)` for a one-character separator, on character lists. -/
def splitOnChar (c : Char) : List Char → List (List Char)
  | [] => [[]]
  | x :: xs =>
    if x = c then
      [] :: splitOnChar c xs
    else
      match splitOnChar c xs with
      | [] => [[x]]
      | h :: t => (x :: h) :: t

/-- JS `s.replace(pat, rep)` with a string pattern: replaces the first
occurrence only, scanning left to right. -/
def replaceFirstChars (p r : List Char) : List Char → List Char
  | [] => if startsWithChars p [] then r else []
  | x :: xs =>
    if startsWithChars p (x :: xs) then r ++ (x :: xs).drop p.length
    else x :: replaceFirstChars p r xs

/-- JS `s.replace(pat, rep)` lifted to `String`. -/
def replaceFirst (s pat rep : String) : String :=
  String.mk (replaceFirstChars pat.data rep.data s.data)

/-- JS `v || dflt` on an optional string: `undefined` and `""` are falsy. -/
def jsOrString (v : Option String) (dflt : String) : String :=
  match v with
  | none => dflt
  | some s => if s = "" then dflt else s

/-- JS `Array.prototype.flatten('/')` on a list of strings. -/
def joinSlash : List String → String
  | [] => ""
  | [s] => s
  | s :: rest => s ++ "/" ++ joinSlash rest

/-- The normalization applied to every raw search item (services/github.ts:
the map building a `PullRequest` from `item`). -/
def normalizeItem (item : RawItem) : PullRequest :=
  let parts := (splitOnChar '/' item.repository_url.data).map String.mk
  { id := item.id
    number := item.number
    title := item.title
    html_url := item.html_url
    created_at := item.created_at
    updated_at := item.updated_at
    user :=
      { login := jsOrString (item.user.map (fun u => u.login)) "unknown"
        avatar_url := jsOrString (item.user.map (fun u => u.avatar_url)) ""
        html_url := jsOrString (item.user.map (fun u => u.html_url)) "" }
    repository :=
      { name := jsOrString parts.getLast? ""
        full_name := jsOrString (some (joinSlash (parts.drop (parts.length - 2)))) ""
        html_url := replaceFirst item.repository_url "api.github.com/repos" "github.com" }
    draft := item.draft.getD false
    state := item.state }

/-- Which of the two concurrently awaited fetches settles first; JS
`Promise.all` rejects with the first rejection to settle. -/
inductive SettleOrder where
  | teamFirst
  | orgFirst
deriving DecidableEq

/-- `Promise.all([p1, p2])`: succeeds with the pair when both succeed, and
fails with the first rejection to settle otherwise. -/
def promiseAllPair (order : SettleOrder) (r₁ : Except String α) (r₂ : Except String β) :
    Except String (α × β) :=
  match r₁, r₂ with
  | .ok a, .ok b => .ok (a, b)
  | .error e, .ok _ => .error e
  | .ok _, .error e => .error e
  | .error e₁, .error e₂ =>
    match order with
    | .teamFirst => .error e₁
    | .orgFirst => .error e₂

/-- `searchTeamPullRequests` (services/github.ts): awaits the team-repository
fetch and the organization PR fetch via `Promise.all`, short-circuits to `[]`
when the team repository list is empty, and otherwise keeps the PRs whose
repository full name is in the team repository set (`new Set(...).has`,
modelled as list membership up to string equality).  The two fetch outcomes
and the settle order are the embedding's inputs. -/
def searchTeamPullRequests (order : SettleOrder)
    (teamReposResult : Except String (List String))
    (orgPRsResult : Except String (List PullRequest)) :
    Except String (List PullRequest) :=
  match promiseAllPair order teamReposResult orgPRsResult with
  | .error e => .error e
  | .ok (teamRepos, allOrgPRs) =>
    if teamRepos.length = 0 then .ok []
    else .ok (allOrgPRs.filter fun pr => teamRepos.contains pr.repository.full_name)

/-- PRs listed newest first: each entry's creation timestamp is no smaller
than any later entry's (ISO-8601 strings compare chronologically). -/
def sortedByCreatedDesc (l : List PullRequest) : Prop :=
  l.Pairwise fun a b => b.created_at ≤ a.created_at

/-- C1: the result of `searchTeamPullRequests` on two successful fetches is
exactly the subset of the organization PR list whose repository full name is
in the team repository set: membership in the result is equivalent to being
an organization PR from a team repository. -/
theorem searchTeamPullRequests_exact_filter (order : SettleOrder)
    (teamRepos : List String) (orgPRs : List PullRequest) :
    ∃ l, searchTeamPullRequests order (.ok teamRepos) (.ok orgPRs) = .ok l ∧
      ∀ pr, pr ∈ l ↔ (pr ∈ orgPRs ∧ pr.repository.full_name ∈ teamRepos) := by
  unfold searchTeamPullRequests promiseAllPair
  by_cases h : teamRepos.length = 0
  · refine ⟨[], by simp [h], ?_⟩
    intro pr
    rcases List.length_eq_zero.mp h with rfl
    simp
  · refine ⟨orgPRs.filter fun pr => teamRepos.contains pr.repository.full_name,
      by simp [h], ?_⟩
    intro pr
    simp [List.mem_filter, List.contains]

/-- C4: when the team-repository fetch succeeds with the empty list,
`searchTeamPullRequests` short-circuits to an empty result without error,
whatever the successfully fetched organization PR list holds. -/
theorem searchTeamPullRequests_empty_team (order : SettleOrder)
    (orgPRs : List PullRequest) :
    searchTeamPullRequests order (.ok []) (.ok orgPRs) = .ok [] := by
  simp [searchTeamPullRequests, promiseAllPair]

/-- C5: filtering never reorders — on two successful fetches the result list
is a sublist of the organization PR list, so when that list is descending by
creation time the result is too. -/
theorem searchTeamPullRequests_preserves_order (order : SettleOrder)
    (teamRepos : List String) (orgPRs l : List PullRequest)
    (hsort : sortedByCreatedDesc orgPRs)
    (hres : searchTeamPullRequests order (.ok teamRepos) (.ok orgPRs) = .ok l) :
    l.Sublist orgPRs ∧ sortedByCreatedDesc l := by
  unfold searchTeamPullRequests promiseAllPair at hres
  by_cases h : teamRepos.length = 0
  · simp [h] at hres
    subst hres
    exact ⟨List.nil_sublist _, List.Pairwise.nil⟩
  · simp [h] at hres
    subst hres
    exact ⟨List.filter_sublist _, hsort.sublist (List.filter_sublist _)⟩

/-- A sample pull request in team repository acme/a. -/
def prA : PullRequest :=
  { id := 101, number := 1, title := "Add parser", html_url := "https://github.com/acme/a/pull/1"
    created_at := "2024-11-14T12:00:00Z", updated_at := "2024-11-14T12:00:00Z"
    user := ⟨"alice", "https://avatars.example/alice", "https://github.com/alice"⟩
    repository := ⟨"a", "acme/a", "https://github.com/acme/a"⟩
    draft := false, state := "open" }

/-- A sample pull request in repository acme/b, created before `prA`. -/
def prB : PullRequest :=
  { id := 102, number := 7, title := "Fix build", html_url := "https://github.com/acme/b/pull/7"
    created_at := "2024-11-13T09:30:00Z", updated_at := "2024-11-13T10:00:00Z"
    user := ⟨"bob", "https://avatars.example/bob", "https://github.com/bob"⟩
    repository := ⟨"b", "acme/b", "https://github.com/acme/b"⟩
    draft := true, state := "open" }

/-- Witness for C5 at a concrete input: the organization list `[prA, prB]`
is descending by creation time, the team set is `{acme/a}`, and the filtered
result `[prA]` is a sublist in the same order. -/
theorem searchTeamPullRequests_preserves_order_witness :
    List.Sublist [prA] [prA, prB] ∧ sortedByCreatedDesc [prA] :=
  searchTeamPullRequests_preserves_order .teamFirst ["acme/a"] [prA, prB] [prA]
    (by simp [sortedByCreatedDesc, prA, prB]; decide) rfl

/-- C3 counterexample: when both fetches fail and the organization fetch's
rejection settles first, `Promise.all` rejects with the organization error,
not the team-repository error — so the combined operation does not fail with
the team fetch's error for every outcome of the organization fetch. -/
theorem searchTeamPullRequests_team_error_counterexample :
    searchTeamPullRequests .orgFirst (.error "team fetch failed") (.error "org fetch failed")
      = .error "org fetch failed" ∧
    searchTeamPullRequests .orgFirst (.error "team fetch failed") (.error "org fetch failed")
      ≠ .error "team fetch failed" := by
  constructor
  · rfl
  · simp [searchTeamPullRequests, promiseAllPair]

/-- C3 amended: when the team-repository fetch fails, the combined operation
fails (no partial result); it fails with the team fetch's error whenever the
organization fetch succeeds, and also whenever the team rejection settles
first — only when the organization fetch fails first is its error the one
propagated. -/
theorem searchTeamPullRequests_team_error_amended (order : SettleOrder) (e : String)
    (orgR : Except String (List PullRequest)) :
    (∀ l, searchTeamPullRequests order (.error e) orgR ≠ .ok l) ∧
    (∀ prs, orgR = .ok prs → searchTeamPullRequests order (.error e) orgR = .error e) ∧
    searchTeamPullRequests .teamFirst (.error e) orgR = .error e := by
  refine ⟨?_, ?_, ?_⟩
  · intro l
    cases orgR <;> cases order <;> simp [searchTeamPullRequests, promiseAllPair]
  · rintro prs rfl
    simp [searchTeamPullRequests, promiseAllPair]
  · cases orgR <;> simp [searchTeamPullRequests, promiseAllPair]

/-- A raw search item whose repository URL is the spec scenario's
`https://api.example.com/repos/acme/widgets`. -/
def rawWidgetsExample : RawItem :=
  { id := 900, number := 12, title := "Widget work"
    html_url := "https://example.com/acme/widgets/pull/12"
    created_at := "2024-11-10T08:00:00Z", updated_at := "2024-11-10T09:00:00Z"
    user := some ⟨"carol", "https://avatars.example/carol", "https://example.com/carol"⟩
    repository_url := "https://api.example.com/repos/acme/widgets"
    draft := none, state := "open" }

/-- The same raw item with the GitHub API form of the repository URL. -/
def rawWidgetsGitHub : RawItem :=
  { rawWidgetsExample with repository_url := "https://api.github.com/repos/acme/widgets" }

/-- C2 counterexample: normalizing the raw item whose repository URL is
`https://api.example.com/repos/acme/widgets` leaves its `html_url` as that
URL unchanged — `replace` rewrites only the literal substring
`api.github.com/repos` — so the claimed `https://example.com/acme/widgets`
is not produced. -/
theorem normalizeItem_example_host_counterexample :
    (normalizeItem rawWidgetsExample).repository.html_url
        = "https://api.example.com/repos/acme/widgets" ∧
    (normalizeItem rawWidgetsExample).repository.html_url
        ≠ "https://example.com/acme/widgets" := by
  constructor
  · decide
  · decide

/-- C2 amended: the URL's final two path segments do give `name = "widgets"`
and `full_name = "acme/widgets"` for the example-host URL, but its `html_url`
stays the raw URL; the API-to-web rewrite happens exactly for URLs carrying
the literal substring `api.github.com/repos`, as with
`https://api.github.com/repos/acme/widgets` ↦ `https://github.com/acme/widgets`. -/
theorem normalizeItem_repository_url_amended :
    (normalizeItem rawWidgetsExample).repository.name = "widgets" ∧
    (normalizeItem rawWidgetsExample).repository.full_name = "acme/widgets" ∧
    (normalizeItem rawWidgetsExample).repository.html_url
        = "https://api.example.com/repos/acme/widgets" ∧
    (normalizeItem rawWidgetsGitHub).repository.name = "widgets" ∧
    (normalizeItem rawWidgetsGitHub).repository.full_name = "acme/widgets" ∧
    (normalizeItem rawWidgetsGitHub).repository.html_url
        = "https://github.com/acme/widgets" := by
  refine ⟨?_, ?_, ?_, ?_, ?_, ?_⟩ <;> decide

/-- Milliseconds per day, the unit conversions of the ECMAScript `Date`. -/
def msPerDay : Int := 86400000

/-- ECMAScript `Day(t)`: the day number of an epoch-milliseconds instant
(floor division; `Int.ediv` is floor division for a positive divisor). -/
def dayNumber (t : Int) : Int := t / msPerDay

/-- ECMAScript time-of-day of an instant, in milliseconds since UTC midnight. -/
def msOfDay (t : Int) : Int := t % msPerDay

/-- The proleptic-Gregorian `(year, month, day)` of a day number, as the
ECMAScript `YearFromTime`/`MonthFromTime`/`DateFromTime` decomposition
(computed in the standard era/day-of-era closed form). -/
def civilFromDays (z : Int) : Int × Int × Int :=
  let zz := z + 719468
  let era := zz / 146097
  let doe := zz - era * 146097
  let yoe := (doe - doe / 1460 + doe / 36524 - doe / 146096) / 365
  let y := yoe + era * 400
  let doy := doe - (365 * yoe + yoe / 4 - yoe / 100)
  let mp := (5 * doy + 2) / 153
  let d := doy - (153 * mp + 2) / 5 + 1
  let m := if mp < 10 then mp + 3 else mp - 9
  (if m ≤ 2 then y + 1 else y, m, d)

/-- The UTC calendar year of an instant. -/
def yearOf (t : Int) : Int := (civilFromDays (dayNumber t)).1

/-- The character standing for the decimal digit `k` (`k < 10` in every use). -/
def digitChar (k : Nat) : Char := Char.ofNat (48 + k)

/-- `n` rendered in exactly `w` decimal digits, zero-padded on the left: the
fixed-width fields of an ISO-8601 timestamp (faithful to `toISOString` for
values below `10 ^ w`, which the year-range hypotheses of the theorems keep
to). -/
def fixedDigits : Nat → Nat → List Char
  | 0, _ => []
  | w + 1, n => fixedDigits w (n / 10) ++ [digitChar (n % 10)]

/-- The `YYYY-MM-DD` character run of `toISOString` for an instant. -/
def datePartChars (t : Int) : List Char :=
  fixedDigits 4 (civilFromDays (dayNumber t)).1.toNat ++ '-' ::
    (fixedDigits 2 (civilFromDays (dayNumber t)).2.1.toNat ++ '-' ::
      fixedDigits 2 (civilFromDays (dayNumber t)).2.2.toNat)

/-- The `HH:MM:SS.mmm` character run of `toISOString` for an instant. -/
def timePartChars (t : Int) : List Char :=
  let r := msOfDay t
  fixedDigits 2 (r / 3600000).toNat ++
    ':' :: (fixedDigits 2 ((r / 60000) % 60).toNat ++
      ':' :: (fixedDigits 2 ((r / 1000) % 60).toNat ++
        '.' :: fixedDigits 3 (r % 1000).toNat))

/-- ECMAScript `Date.prototype.toISOString`: the UTC date, a literal `T`,
the UTC time and a literal `Z` (modelled for the four-digit-year range the
dashboard's dates live in). -/
def toISOString (t : Int) : String :=
  String.mk (datePartChars t ++ 'T' :: (timePartChars t ++ ['Z']))

/-- `formatDateForGitHub` (utils/dateUtils.ts): `date.toISOString().split('T')[0]`. -/
def formatDateForGitHub (t : Int) : String :=
  String.mk ((splitOnChar 'T' (toISOString t).data).headD [])

/-- `getTwoWeeksAgo` (utils/dateUtils.ts): `date.setDate(date.getDate() - 14)`
on the current instant — fourteen days earlier at the same time of day (the
embedding works in UTC milliseconds, where shifting the day-of-month field by
fourteen is subtracting fourteen days). -/
def getTwoWeeksAgo (now : Int) : Int := now - 14 * msPerDay

/-- Modelled from the spec: `getDaysAgo` (utils/dateUtils.ts is not among the
repository's files; only its tests and callers are).  Per §8 and the unit
tests, the cutoff is exactly `d` days before "now" at the same time of day. -/
def getDaysAgo (d : Nat) (now : Int) : Int := now - d * msPerDay

/-- `isWithinTwoWeeks` (utils/dateUtils.ts): `new Date(dateString) >=
getTwoWeeksAgo()`, on the parsed instant of the argument. -/
def isWithinTwoWeeks (ts now : Int) : Bool := getTwoWeeksAgo now ≤ ts

/-- The query built by `searchOrgPullRequests` (services/github.ts): starts
from `is:pr is:open org:<org>` and appends the `created:>=` clause exactly
when a day window is given. -/
def buildOrgQuery (org : String) (days : Option Nat) (now : Int) : String :=
  let base := "is:pr is:open org:" ++ org
  match days with
  | none => base
  | some d => base ++ (" created:>=" ++ formatDateForGitHub (getDaysAgo d now))

/-- The query built by `searchUserPullRequests` (services/github.ts), the
same shape over `user:<username>`. -/
def buildUserQuery (username : String) (days : Option Nat) (now : Int) : String :=
  let base := "is:pr is:open user:" ++ username
  match days with
  | none => base
  | some d => base ++ (" created:>=" ++ formatDateForGitHub (getDaysAgo d now))

/-- Whether the character run `p` occurs anywhere in `s`. -/
def containsChars (p : List Char) : List Char → Bool
  | [] => startsWithChars p []
  | x :: xs => startsWithChars p (x :: xs) || containsChars p xs

theorem fixedDigits_length (w n : Nat) : (fixedDigits w n).length = w := by
  induction w generalizing n with
  | zero => rfl
  | succ w ih => simp [fixedDigits, ih]

theorem digitChar_isDigit : ∀ k : Nat, k < 10 → (digitChar k).isDigit = true := by
  decide

theorem fixedDigits_isDigit (w n : Nat) : ∀ c ∈ fixedDigits w n, c.isDigit = true := by
  induction w generalizing n with
  | zero => simp [fixedDigits]
  | succ w ih =>
    intro c hc
    rcases List.mem_append.mp hc with h | h
    · exact ih _ _ h
    · rcases List.mem_singleton.mp h with rfl
      exact digitChar_isDigit _ (Nat.mod_lt _ (by norm_num))

theorem splitOnChar_first (c : Char) (a b : List Char) (h : c ∉ a) :
    splitOnChar c (a ++ c :: b) = a :: splitOnChar c b := by
  induction a with
  | nil => simp [splitOnChar]
  | cons x xs ih =>
    have hx : ¬ x = c := fun hh => h (by rw [hh]; exact List.mem_cons_self c xs)
    have hxs : c ∉ xs := fun hh => h (List.mem_cons_of_mem _ hh)
    simp only [List.cons_append, splitOnChar, if_neg hx]
    rw [show xs.append (c :: b) = xs ++ c :: b from rfl, ih hxs]

theorem datePartChars_no_T (t : Int) : 'T' ∉ datePartChars t := by
  intro hmem
  unfold datePartChars at hmem
  rcases List.mem_append.mp hmem with h | h
  · have := fixedDigits_isDigit _ _ _ h
    simp at this
  · rcases List.mem_cons.mp h with h' | h'
    · exact absurd h' (by decide)
    · rcases List.mem_append.mp h' with h'' | h''
      · have := fixedDigits_isDigit _ _ _ h''
        simp at this
      · rcases List.mem_cons.mp h'' with h3 | h3
        · exact absurd h3 (by decide)
        · have := fixedDigits_isDigit _ _ _ h3
          simp at this

/-- The `split('T')[0]` of the full ISO string is exactly its date part. -/
theorem formatDateForGitHub_eq_datePart (t : Int) :
    formatDateForGitHub t = String.mk (datePartChars t) := by
  unfold formatDateForGitHub toISOString
  have hdata : (String.mk (datePartChars t ++ 'T' :: (timePartChars t ++ ['Z']))).data
      = datePartChars t ++ 'T' :: (timePartChars t ++ ['Z']) := rfl
  rw [hdata, splitOnChar_first _ _ _ (datePartChars_no_T t)]
  rfl

/-- Whether a string is a zero-padded `YYYY-MM-DD` calendar date: ten
characters, digits except for dashes after the year and the month. -/
def isoDateShapeB (s : String) : Bool :=
  match s.data with
  | [y1, y2, y3, y4, s1, m1, m2, s2, d1, d2] =>
    y1.isDigit && y2.isDigit && y3.isDigit && y4.isDigit && (s1 == '-') &&
      m1.isDigit && m2.isDigit && (s2 == '-') && d1.isDigit && d2.isDigit
  | _ => false

theorem length_two_chars (l : List Char) (h : l.length = 2) : ∃ a b, l = [a, b] := by
  rcases l with _ | ⟨a, _ | ⟨b, _ | ⟨c, l⟩⟩⟩ <;> simp_all

theorem length_four_chars (l : List Char) (h : l.length = 4) :
    ∃ a b c d, l = [a, b, c, d] := by
  rcases l with _ | ⟨a, _ | ⟨b, _ | ⟨c, _ | ⟨d, _ | ⟨e, l⟩⟩⟩⟩⟩ <;> simp_all

theorem isoDateShapeB_datePart (t : Int) :
    isoDateShapeB (String.mk (datePartChars t)) = true := by
  obtain ⟨a, b, c, d, hy⟩ :=
    length_four_chars _ (fixedDigits_length 4 (civilFromDays (dayNumber t)).1.toNat)
  obtain ⟨e, f, hm⟩ :=
    length_two_chars _ (fixedDigits_length 2 (civilFromDays (dayNumber t)).2.1.toNat)
  obtain ⟨g, k, hd⟩ :=
    length_two_chars _ (fixedDigits_length 2 (civilFromDays (dayNumber t)).2.2.toNat)
  have hyd := fixedDigits_isDigit 4 (civilFromDays (dayNumber t)).1.toNat
  have hmd := fixedDigits_isDigit 2 (civilFromDays (dayNumber t)).2.1.toNat
  have hdd := fixedDigits_isDigit 2 (civilFromDays (dayNumber t)).2.2.toNat
  rw [hy] at hyd
  rw [hm] at hmd
  rw [hd] at hdd
  unfold datePartChars
  rw [hy, hm, hd]
  simp only [isoDateShapeB, List.cons_append, List.nil_append]
  simp [hyd a (by simp), hyd b (by simp), hyd c (by simp), hyd d (by simp),
    hmd e (by simp), hmd f (by simp), hdd g (by simp), hdd k (by simp)]

/-- C6: for every day window `d > 0` the cutoff instant `getDaysAgo d` is
exactly `d` days before "now" with the same time of day, and
`formatDateForGitHub` renders it as the ISO string's date part alone — a
zero-padded `YYYY-MM-DD` with no time component (the year-range hypotheses
keep to the four-digit years the `toISOString` model covers). -/
theorem getDaysAgo_cutoff_format (now : Int) (d : Nat) (hd : 0 < d)
    (hy0 : 0 ≤ yearOf (getDaysAgo d now)) (hy1 : yearOf (getDaysAgo d now) ≤ 9999) :
    getDaysAgo d now = now - d * msPerDay ∧
    msOfDay (getDaysAgo d now) = msOfDay now ∧
    formatDateForGitHub (getDaysAgo d now) = String.mk (datePartChars (getDaysAgo d now)) ∧
    isoDateShapeB (formatDateForGitHub (getDaysAgo d now)) = true := by
  refine ⟨rfl, ?_, formatDateForGitHub_eq_datePart _, ?_⟩
  · unfold getDaysAgo msOfDay msPerDay
    omega
  · rw [formatDateForGitHub_eq_datePart]
    exact isoDateShapeB_datePart _

/-- Witness for C6 at `now` = 2024-11-14T12:00:00Z and `d = 7`: the cutoff
formats to the zero-padded calendar date `2024-11-07`. -/
theorem getDaysAgo_cutoff_format_witness :
    formatDateForGitHub (getDaysAgo 7 1731585600000) = "2024-11-07" ∧
    isoDateShapeB (formatDateForGitHub (getDaysAgo 7 1731585600000)) = true := by
  obtain ⟨h1, h2, h3, h4⟩ :=
    getDaysAgo_cutoff_format 1731585600000 7 (by decide) (by decide) (by decide)
  exact ⟨by decide, h4⟩

/-- C7: with a `null` day window the query is exactly `is:pr is:open
org:<org>` — the `created:>=` clause is appended exactly when a window is
given, and the windowless query for a concrete organization carries no
`created:>=` text. -/
theorem buildOrgQuery_no_window (org : String) (now : Int) :
    buildOrgQuery org none now = "is:pr is:open org:" ++ org ∧
    (∀ d : Nat, buildOrgQuery org (some d) now
        = ("is:pr is:open org:" ++ org) ++ (" created:>=" ++ formatDateForGitHub (getDaysAgo d now))) ∧
    containsChars "created:>=".data (buildOrgQuery "acme" none 0).data = false := by
  exact ⟨rfl, fun d => rfl, by decide⟩

/-- C8: the within-window test is inclusive at the cutoff boundary — true at
the cutoff instant itself, false one second (1000 ms) before it. -/
theorem isWithinTwoWeeks_boundary (now : Int) :
    isWithinTwoWeeks (getTwoWeeksAgo now) now = true ∧
    isWithinTwoWeeks (getTwoWeeksAgo now - 1000) now = false := by
  constructor
  · simp [isWithinTwoWeeks]
  · simp only [isWithinTwoWeeks, decide_eq_false_iff_not, not_le]
    omega

/-- Modelled from the spec: the paginate helper the fetchers delegate to
(its code is the HTTP client library's, not among the repository's files).
Per §4.1/§4.2, successive pages are requested and accumulated until a page
returns fewer than the page size; the upstream is embedded as the list of
pages it would serve, and pages after the first short one are never
requested — the result is independent of them. -/
def paginateFrom (pageSize : Nat) : List (List α) → List α
  | [] => []
  | p :: ps => if p.length < pageSize then p else p ++ paginateFrom pageSize ps

/-- A repository record of the team-repository listing endpoint. -/
structure TeamRepo where
  name : String
  full_name : String
deriving DecidableEq

/-- `getTeamRepositories` (services/github.ts): paginates the team
repository listing with page size 100 and keeps each record's full name. -/
def getTeamRepositories (pages : List (List TeamRepo)) : List String :=
  (paginateFrom 100 pages).map fun r => r.full_name

/-- `searchOrgPullRequests` (services/github.ts): paginates the search with
page size 100 and normalizes every item. -/
def searchOrgPullRequests (org : String) (days : Option Nat) (now : Int)
    (pages : List (List RawItem)) : List PullRequest :=
  (paginateFrom 100 pages).map normalizeItem

/-- `searchUserPullRequests` (services/github.ts): one search request with
`per_page: 100` and no pagination, so only the first page — at most 100
items — is normalized, however many items match. -/
def searchUserPullRequests (username : String) (days : Option Nat) (now : Int)
    (matching : List RawItem) : List PullRequest :=
  (matching.take 100).map normalizeItem

theorem paginateFrom_stops (pageSize : Nat) (short : List α) (hshort : short.length < pageSize)
    (fulls : List (List α)) (hfull : ∀ p ∈ fulls, p.length = pageSize)
    (extra : List (List α)) :
    paginateFrom pageSize (fulls ++ short :: extra) = paginateFrom pageSize (fulls ++ [short]) := by
  induction fulls with
  | nil => simp [paginateFrom, hshort]
  | cons p ps ih =>
    have hp : ¬ p.length < pageSize := by
      rw [hfull p (List.mem_cons_self p ps)]
      exact lt_irrefl _
    simp only [List.cons_append, paginateFrom, if_neg hp, List.append_eq]
    rw [ih fun q hq => hfull q (List.mem_cons_of_mem _ hq)]

theorem paginateFrom_eq_join (pageSize : Nat) (ps : List (List α))
    (h : ∀ p ∈ ps.dropLast, p.length = pageSize) :
    paginateFrom pageSize ps = ps.flatten := by
  induction ps with
  | nil => rfl
  | cons p ps ih =>
    cases ps with
    | nil =>
      by_cases hp : p.length < pageSize <;> simp [paginateFrom, hp]
    | cons q qs =>
      have hp : ¬ p.length < pageSize := by
        rw [h p (by simp [List.dropLast])]
        exact lt_irrefl _
      have hrest : paginateFrom pageSize (q :: qs) = (q :: qs).flatten :=
        ih fun r hr => h r (by simp [List.dropLast] at hr ⊢; tauto)
      calc paginateFrom pageSize (p :: q :: qs)
          = p ++ paginateFrom pageSize (q :: qs) := by rw [paginateFrom, if_neg hp]
        _ = (p :: q :: qs).flatten := by rw [hrest]; simp

/-- C9: over an upstream serving full 100-item pages and then one short (or
empty) page, `getTeamRepositories` aggregates exactly the sum of the page
lengths, and no page past the first short one is requested — the result does
not depend on anything served after it. -/
theorem getTeamRepositories_pagination
    (fulls : List (List TeamRepo)) (short : List TeamRepo) (extra : List (List TeamRepo))
    (hfull : ∀ p ∈ fulls, p.length = 100) (hshort : short.length < 100) :
    (getTeamRepositories (fulls ++ short :: extra)).length
        = ((fulls ++ [short]).map List.length).sum ∧
    getTeamRepositories (fulls ++ short :: extra) = getTeamRepositories (fulls ++ [short]) := by
  have hstop := paginateFrom_stops 100 short hshort fulls hfull extra
  have hjoin : paginateFrom 100 (fulls ++ [short]) = (fulls ++ [short]).flatten := by
    apply paginateFrom_eq_join
    intro p hp
    rw [List.dropLast_concat] at hp
    exact hfull p hp
  constructor
  · unfold getTeamRepositories
    rw [hstop, hjoin]
    simp [List.length_flatten, Function.comp_def, List.length_map]
  · unfold getTeamRepositories
    rw [hstop]

/-- A sample repository record of the team listing. -/
def sampleRepoA : TeamRepo := ⟨"a", "acme/a"⟩

/-- A second sample repository record, served only on a never-requested page. -/
def sampleRepoB : TeamRepo := ⟨"b", "acme/b"⟩

/-- Witness for C9 at a concrete input: a single one-item (short) page
followed by a junk page aggregates to that one item, and the junk page is
never requested. -/
theorem getTeamRepositories_pagination_witness :
    (getTeamRepositories ([] ++ [sampleRepoA] :: [[sampleRepoB]])).length
        = (([] ++ [[sampleRepoA]]).map List.length).sum ∧
    getTeamRepositories ([] ++ [sampleRepoA] :: [[sampleRepoB]])
        = getTeamRepositories ([] ++ [[sampleRepoA]]) :=
  getTeamRepositories_pagination [] [sampleRepoA] [[sampleRepoB]] (by simp) (by decide)

/-- C10: `searchUserPullRequests` issues one search request of page size 100
and returns only that page, so its result holds `min matching 100` pull
requests — at most 100 however many match — while `searchOrgPullRequests`
follows pagination and returns every served item. -/
theorem searchUserPullRequests_single_page (username : String) (days : Option Nat) (now : Int)
    (matching : List RawItem) :
    (searchUserPullRequests username days now matching).length = min matching.length 100 ∧
    (∀ org fulls short, (∀ p ∈ fulls, List.length p = 100) → short.length < 100 →
        (searchOrgPullRequests org days now (fulls ++ [short])).length
          = ((fulls ++ [short]).map List.length).sum) := by
  constructor
  · unfold searchUserPullRequests
    simp [List.length_take, Nat.min_comm]
  · intro org fulls short hfull hshort
    unfold searchOrgPullRequests
    rw [paginateFrom_eq_join]
    · simp [List.length_flatten, Function.comp_def, List.length_map]
    · intro p hp
      rw [List.dropLast_concat] at hp
      exact hfull p hp
